import Mathlib

/-!
Verification of the Metropolis-Hastings kernel and driver from the GenJAX
MCMC cookbook notebook (`metropolis_hastings_move`, `prop`, `mh`,
`custom_mh`, `run_inference`).  The probabilistic-programming library's
collaborators (trace update, proposal sampling and assessment, importance
initialization, seed splitting, uniform sampling, logarithm) are external
to the repository; they are embedded as abstract interface records, and
where a concrete behaviour is needed it is modelled from the spec.
-/

namespace GenjaxMH

/-- Log-space weights: an extended number line with a not-a-number element,
mirroring the IEEE-style arithmetic the notebook's weights live in. -/
inductive Weight where
  | nan : Weight
  | negInf : Weight
  | posInf : Weight
  | fin : ℤ → Weight
deriving DecidableEq

/-- Addition on log-space weights; opposite infinities give `nan`. -/
def Weight.add : Weight → Weight → Weight
  | .nan, _ => .nan
  | _, .nan => .nan
  | .negInf, .posInf => .nan
  | .posInf, .negInf => .nan
  | .negInf, _ => .negInf
  | _, .negInf => .negInf
  | .posInf, _ => .posInf
  | _, .posInf => .posInf
  | .fin a, .fin b => .fin (a + b)

/-- Negation on log-space weights. -/
def Weight.neg : Weight → Weight
  | .nan => .nan
  | .negInf => .posInf
  | .posInf => .negInf
  | .fin q => .fin (-q)

/-- Subtraction on log-space weights. -/
def Weight.sub (a b : Weight) : Weight := a.add b.neg

/-- Strict comparison on log-space weights; `nan` compares false on both
sides, as floating-point comparison does. -/
def Weight.lt : Weight → Weight → Bool
  | .nan, _ => false
  | _, .nan => false
  | .negInf, .negInf => false
  | .negInf, _ => true
  | _, .negInf => false
  | .posInf, _ => false
  | .fin _, .posInf => true
  | .fin a, .fin b => decide (a < b)

/-- Hierarchical addresses of random choices; the notebook uses flat string
addresses. -/
abbrev Addr := String

/-- A choice assignment: a finite mapping from addresses to values. -/
abbrev ChoiceMap := List (Addr × ℤ)

/-- Random seeds (jax PRNG keys), embedded as natural numbers. -/
abbrev Seed := ℕ

/-- Address of the choice `"a"` in the notebook's model and proposal. -/
def addrA : Addr := "a"

/-- Address of the choice `"b"` in the notebook's model. -/
def addrB : Addr := "b"

/-- Address of the observed choice `"y"` in the notebook's model. -/
def addrY : Addr := "y"

/-- Look up an address in a choice assignment. -/
def cmLookup : ChoiceMap → Addr → Option ℤ
  | [], _ => none
  | (k, v) :: rest, a => if k = a then some v else cmLookup rest a

/-- Modelled from the spec: applying a choice-assignment edit to a trace's
realized choices overwrites the edited addresses and keeps every other
choice (spec 4.1 step 4); the library implementation of `model.update` is
not part of this repository. -/
def cmUpdate (old edits : ChoiceMap) : ChoiceMap :=
  old.map (fun p => (p.1, (cmLookup edits p.1).getD p.2))

/-- Modelled from the spec: the discard record of an update holds the prior
values at the addresses that were overwritten (spec 4.1 step 4). -/
def cmDiscard (old edits : ChoiceMap) : ChoiceMap :=
  old.filter (fun p => (cmLookup edits p.1).isSome)

/-- A trace: arguments, realized choice assignment, return value and
log-score, per the spec's data model. -/
structure Trace where
  args : List ℤ
  choices : ChoiceMap
  retval : ℤ
  score : Weight
deriving DecidableEq

/-- Argument-change descriptors; the kernel only ever constructs the
"no change" descriptor (`Diff.no_change(model_args)`). -/
inductive Diff where
  | no_change : List ℤ → Diff

/-- The model collaborator interface: `update` and `importance`, as used by
the notebook (`model.update`, `model.importance`). -/
structure Model where
  update : Seed → Trace → ChoiceMap → Diff → Trace × Weight × Unit × ChoiceMap
  importance : Seed → ChoiceMap → List ℤ → Trace × Weight

/-- The proposal collaborator interface: `propose` and `assess`, as used by
the notebook (`proposal.propose`, `proposal.assess`).  Proposal arguments
are the current trace paired with extra arguments. -/
structure Proposal where
  propose : Seed → Trace × List ℤ → ChoiceMap × Weight × ℤ
  assess : ChoiceMap → Trace × List ℤ → Weight × ℤ

/-- The chain state tuple threaded through the driver:
`(trace, model, proposal, proposal_args, observations)`. -/
structure MHState where
  trace : Trace
  model : Model
  proposal : Proposal
  proposal_args : List ℤ
  observations : ChoiceMap

/-- The ambient randomness interface: seed splitting (binary, ternary and
n-ary, as `jax.random.split` is used with those arities), the uniform
sampler and the logarithm. -/
structure Rng where
  split : Seed → Seed × Seed
  split3 : Seed → Seed × Seed × Seed
  splitN : Seed → ℕ → List Seed
  uniform : Seed → ℤ
  log : ℤ → Weight
  splitN_length : ∀ s n, (splitN s n).length = n

/-- The MH transition kernel `metropolis_hastings_move(mh_args, key)` from
the notebook: sample a forward proposal, update the trace, assess the
backward move on the discard, and accept iff `log(uniform) < α` with
`α = weight - fwd_weight + bwd_weight`. -/
def metropolis_hastings_move (rng : Rng) (mh_args : MHState) (key : Seed) :
    MHState × Trace :=
  let trace := mh_args.trace
  let model := mh_args.model
  let proposal := mh_args.proposal
  let proposal_args := mh_args.proposal_args
  let observations := mh_args.observations
  let model_args := trace.args
  let argdiffs := Diff.no_change model_args
  let proposal_args_forward := (trace, proposal_args)
  let ks := rng.split key
  let key1 := ks.1
  let subkey1 := ks.2
  let pf := proposal.propose key1 proposal_args_forward
  let fwd_choices := pf.1
  let fwd_weight := pf.2.1
  let mu := model.update subkey1 trace fwd_choices argdiffs
  let new_trace := mu.1
  let weight := mu.2.1
  let discarded := mu.2.2.2
  let proposal_args_backward := (new_trace, proposal_args)
  let bwd_weight := (proposal.assess discarded proposal_args_backward).1
  let alpha := (weight.sub fwd_weight).add bwd_weight
  let ks2 := rng.split key1
  let subkey2 := ks2.2
  let ret_fun :=
    if Weight.lt (rng.log (rng.uniform subkey2)) alpha then new_trace else trace
  (⟨ret_fun, model, proposal, proposal_args, observations⟩, ret_fun)

/-- The loop combinator `jax.lax.scan`: thread a carry through a list of
inputs, collecting the per-step outputs in order. -/
def laxScan {C K O : Type} (f : C → K → C × O) : C → List K → C × List O
  | c, [] => (c, [])
  | c, k :: ks =>
    let step := f c k
    let rest := laxScan f step.1 ks
    (rest.1, step.2 :: rest.2)

/-- The MH driver `mh(...)` from the notebook: split the seed into
`num_updates` step keys and scan the kernel over them, returning the final
trace and the chain of per-step traces. -/
def mh (rng : Rng) (trace : Trace) (model : Model) (proposal : Proposal)
    (proposal_args : List ℤ) (observations : ChoiceMap) (key : Seed)
    (num_updates : ℕ) : Trace × List Trace :=
  let mh_keys := rng.splitN key num_updates
  let res := laxScan (metropolis_hastings_move rng)
    ⟨trace, model, proposal, proposal_args, observations⟩ mh_keys
  (res.1.trace, res.2)

/-- The chain state after the first `i` steps of the scan over `ks`. -/
def mhCarry (rng : Rng) (st : MHState) (ks : List Seed) (i : ℕ) : MHState :=
  (laxScan (metropolis_hastings_move rng) st (ks.take i)).1

/-- Modelled from the spec: the notebook's Gaussian-drift proposal `prop`,
a generative function sampling one choice at address `"a"` around the
current trace's value; its `propose`/`assess` semantics (normal sampling
and log-density, library code not in this repository) are abstracted by
the sampler `ns` and log-density `lp` parameters. -/
def prop (ns : Seed → ℤ → ℤ → ℤ) (lp : ℤ → ℤ → ℤ → Weight) : Proposal where
  propose := fun key pargs =>
    let tr := pargs.1
    let orig_a := (cmLookup tr.choices addrA).getD 0
    let a := ns key orig_a 1
    ([(addrA, a)], lp a orig_a 1, a)
  assess := fun choices pargs =>
    let tr := pargs.1
    let orig_a := (cmLookup tr.choices addrA).getD 0
    let a := (cmLookup choices addrA).getD 0
    (lp a orig_a 1, a)

/-- The notebook's `custom_mh`: the driver specialized to the Gaussian
drift proposal with empty proposal arguments. -/
def custom_mh (rng : Rng) (ns : Seed → ℤ → ℤ → ℤ) (lp : ℤ → ℤ → ℤ → Weight)
    (trace : Trace) (model : Model) (observations : ChoiceMap) (key : Seed)
    (num_updates : ℕ) : Trace × List Trace :=
  mh rng trace model (prop ns lp) [] observations key num_updates

/-- The notebook's `run_inference`: split the key in three, draw one
importance-initialized trace under the observations, then rejuvenate it
with the custom MH chain. -/
def run_inference (rng : Rng) (ns : Seed → ℤ → ℤ → ℤ)
    (lp : ℤ → ℤ → ℤ → Weight) (model : Model) (model_args : List ℤ)
    (obs : ChoiceMap) (key : Seed) (num_samples : ℕ) : Trace × List Trace :=
  let ks := rng.split3 key
  let subkey1 := ks.2.1
  let subkey2 := ks.2.2
  let tr := (model.importance subkey1 obs model_args).1
  custom_mh rng ns lp tr model obs subkey2 num_samples

/-- A concrete deterministic randomness interface used to instantiate the
abstract theorems on concrete inputs. -/
def rng0 : Rng where
  split := fun s => (2 * s + 1, 2 * s + 2)
  split3 := fun s => (3 * s + 1, 3 * s + 2, 3 * s + 3)
  splitN := fun s n => (List.range n).map (fun i => s + i + 1)
  uniform := fun _ => 1
  log := fun q => if q = 0 then .negInf else .fin 0
  splitN_length := fun s n => by simp

/-- A concrete model whose update applies the edit by overwriting the
edited addresses, with unit incremental weight. -/
def M0 : Model where
  update := fun _ tr edits _ =>
    (⟨tr.args, cmUpdate tr.choices edits, tr.retval, tr.score⟩,
      .fin 0, (), cmDiscard tr.choices edits)
  importance := fun _ c a => (⟨a, c, 0, .fin 0⟩, .fin 0)

/-- A concrete proposal that always proposes the value 99 at `"a"`. -/
def P0 : Proposal where
  propose := fun _ _ => ([(addrA, 99)], .fin 0, 99)
  assess := fun _ _ => (.fin 0, 0)

/-- A concrete proposal whose backward assessment yields `+inf`, driving
the acceptance log-ratio to positive infinity. -/
def Pinf : Proposal where
  propose := fun _ _ => ([(addrA, 99)], .fin 0, 99)
  assess := fun _ _ => (.posInf, 0)

/-- A concrete starting trace for the notebook model instance. -/
def t0 : Trace := ⟨[5], [(addrA, 0), (addrB, 0), (addrY, 4)], 4, .fin 0⟩

/-- The notebook's observation constraint `obs = C["y"].set(4.0)`. -/
def obs0 : ChoiceMap := [(addrY, 4)]

/-- A concrete chain state. -/
def st0 : MHState := ⟨t0, M0, P0, [], obs0⟩

/-- A concrete chain state whose proposal forces `α = +inf`. -/
def stInf : MHState := ⟨t0, M0, Pinf, [], obs0⟩

/-- A variant of `rng0` whose uniform draw at seed 4 is 0. -/
def rng1 : Rng := { rng0 with uniform := fun s => if s = 4 then 0 else 1 }

/-- A variant of `rng1` differing only in the uniform draw at seed 4. -/
def rng2 : Rng := { rng0 with uniform := fun _ => 1 }

/-- A concrete stand-in for the normal sampler. -/
def ns0 : Seed → ℤ → ℤ → ℤ := fun _ m _ => m + 1

/-- A concrete stand-in for the normal log-density. -/
def lp0 : ℤ → ℤ → ℤ → Weight := fun _ _ _ => .fin 0

/-- The forward proposal result computed by the kernel: `proposal.propose`
applied to the first output of splitting the step key, on the current trace
and the proposal arguments. -/
def fwdProposal (rng : Rng) (st : MHState) (key : Seed) : ChoiceMap × Weight × ℤ :=
  st.proposal.propose (rng.split key).1 (st.trace, st.proposal_args)

/-- The model-update result computed by the kernel: `model.update` applied
to the second output of splitting the step key, the current trace, the
forward choices and the no-change argument descriptor. -/
def updateResult (rng : Rng) (st : MHState) (key : Seed) :
    Trace × Weight × Unit × ChoiceMap :=
  st.model.update (rng.split key).2 st.trace (fwdProposal rng st key).1
    (Diff.no_change st.trace.args)

/-- The backward weight computed by the kernel: `proposal.assess` on the
discard record against the candidate trace. -/
def bwdWeight (rng : Rng) (st : MHState) (key : Seed) : Weight :=
  (st.proposal.assess (updateResult rng st key).2.2.2
    ((updateResult rng st key).1, st.proposal_args)).1

/-- The acceptance log-ratio computed by the kernel:
`α = weight - fwd_weight + bwd_weight`. -/
def acceptRatio (rng : Rng) (st : MHState) (key : Seed) : Weight :=
  ((updateResult rng st key).2.1.sub (fwdProposal rng st key).2.1).add
    (bwdWeight rng st key)

/-- The seed the kernel feeds to the uniform draw: the second output of
re-splitting the first output of splitting the step key. -/
def acceptSeed (rng : Rng) (key : Seed) : Seed :=
  (rng.split (rng.split key).1).2

theorem mk_ite_comm (b : Bool) (nt t : Trace) (m : Model) (p : Proposal)
    (pa : List ℤ) (o : ChoiceMap) :
    ((⟨if b then nt else t, m, p, pa, o⟩ : MHState), if b then nt else t)
      = if b then ((⟨nt, m, p, pa, o⟩ : MHState), nt)
        else ((⟨t, m, p, pa, o⟩ : MHState), t) := by
  cases b <;> simp

theorem mhMove_ite (rng : Rng) (st : MHState) (key : Seed) :
    metropolis_hastings_move rng st key =
      if Weight.lt (rng.log (rng.uniform (acceptSeed rng key)))
          (acceptRatio rng st key)
      then ({st with trace := (updateResult rng st key).1},
            (updateResult rng st key).1)
      else (st, st.trace) := by
  simp only [metropolis_hastings_move, acceptSeed, acceptRatio, updateResult,
    fwdProposal, bwdWeight]
  exact mk_ite_comm _ _ st.trace st.model st.proposal st.proposal_args
    st.observations

/-- C1: for every current trace, forward weight, model update weight,
backward weight (obtained by assessing the discard record against the
candidate trace) and uniform draw, the kernel accepts the candidate trace
iff `ln(u) < w - fw + bw`, and otherwise returns the unchanged current
trace. -/
theorem mh_kernel_accept_iff (rng : Rng) (st : MHState) (key : Seed) :
    metropolis_hastings_move rng st key =
      if Weight.lt (rng.log (rng.uniform (acceptSeed rng key)))
          (((updateResult rng st key).2.1.sub (fwdProposal rng st key).2.1).add
            (bwdWeight rng st key))
      then ({st with trace := (updateResult rng st key).1},
            (updateResult rng st key).1)
      else (st, st.trace) :=
  mhMove_ite rng st key

/-- C6: one kernel application changes only the current-trace slot of the
chain state; model, proposal, proposal arguments and observations are
returned unchanged, and the emitted record equals the new state's trace. -/
theorem mh_kernel_frame (rng : Rng) (st : MHState) (key : Seed) :
    (metropolis_hastings_move rng st key).1.model = st.model
  ∧ (metropolis_hastings_move rng st key).1.proposal = st.proposal
  ∧ (metropolis_hastings_move rng st key).1.proposal_args = st.proposal_args
  ∧ (metropolis_hastings_move rng st key).1.observations = st.observations
  ∧ (metropolis_hastings_move rng st key).2
      = (metropolis_hastings_move rng st key).1.trace :=
  ⟨rfl, rfl, rfl, rfl, rfl⟩

/-- C8: the kernel threads the observation constraints through unchanged
but never reads them: two chain states differing only in the observations
yield the same output trace and the same record. -/
theorem mh_kernel_obs_unread (rng : Rng) (st : MHState) (o2 : ChoiceMap)
    (key : Seed) :
    (metropolis_hastings_move rng {st with observations := o2} key).2
      = (metropolis_hastings_move rng st key).2
  ∧ (metropolis_hastings_move rng {st with observations := o2} key).1.trace
      = (metropolis_hastings_move rng st key).1.trace
  ∧ (metropolis_hastings_move rng {st with observations := o2} key).1.observations
      = o2 :=
  ⟨rfl, rfl, rfl⟩

theorem laxScan_length {C K O : Type} (f : C → K → C × O) :
    ∀ (ks : List K) (c : C), ((laxScan f c ks).2).length = ks.length := by
  intro ks
  induction ks with
  | nil => intro c; rfl
  | cons k ks ih => intro c; simp [laxScan, ih]

theorem laxScan_get {C K O : Type} (f : C → K → C × O) :
    ∀ (ks : List K) (i : ℕ) (c : C) (k : K), ks[i]? = some k →
      ((laxScan f c ks).2)[i]?
        = some ((f ((laxScan f c (ks.take i)).1) k).2) := by
  intro ks
  induction ks with
  | nil => intro i c k h; simp at h
  | cons x xs ih =>
    intro i c k h
    cases i with
    | zero =>
      simp at h
      subst h
      simp [laxScan]
    | succ i =>
      simp at h
      simpa [laxScan] using ih i (f c x).1 k h

theorem laxScan_carry_succ {C K O : Type} (f : C → K → C × O) :
    ∀ (ks : List K) (i : ℕ) (c : C) (k : K), ks[i]? = some k →
      (laxScan f c (ks.take (i + 1))).1
        = (f ((laxScan f c (ks.take i)).1) k).1 := by
  intro ks
  induction ks with
  | nil => intro i c k h; simp at h
  | cons x xs ih =>
    intro i c k h
    cases i with
    | zero =>
      simp at h
      subst h
      simp [laxScan]
    | succ i =>
      simp at h
      simpa [laxScan] using ih i (f c x).1 k h

theorem laxScan_getLast {C K O : Type} (f : C → K → C × O) (g : C → O)
    (hg : ∀ c k, g (f c k).1 = (f c k).2) :
    ∀ (ks : List K) (c : C), ks ≠ [] →
      ((laxScan f c ks).2).getLast? = some (g (laxScan f c ks).1) := by
  intro ks
  induction ks with
  | nil => intro c h; exact absurd rfl h
  | cons x xs ih =>
    intro c _
    by_cases hxs : xs = []
    · subst hxs
      simp [laxScan, hg]
    · have hne : (laxScan f (f c x).1 xs).2 ≠ [] := by
        intro hcon
        have h := laxScan_length f xs (f c x).1
        rw [hcon] at h
        simp at h
        exact hxs (List.length_eq_zero.mp h.symm)
      obtain ⟨z, zs, hz⟩ := List.exists_cons_of_ne_nil hne
      have htail := ih (f c x).1 hxs
      show ((f c x).2 :: (laxScan f (f c x).1 xs).2).getLast?
        = some (g (laxScan f (f c x).1 xs).1)
      rw [hz, List.getLast?_cons_cons, ← hz]
      exact htail

/-- C2: the driver emits exactly `N` chain records; the `i`-th record is
produced by applying the kernel to the chain state output by the previous
steps; with `N = 0` the initial trace is returned unchanged with an empty
record sequence; with `N > 0` the returned final trace equals the last
record. -/
theorem mh_driver_contract (rng : Rng) (t : Trace) (M : Model) (P : Proposal)
    (pa : List ℤ) (obs : ChoiceMap) (key : Seed) (N : ℕ) :
    ((mh rng t M P pa obs key N).2).length = N
  ∧ (∀ i k, (rng.splitN key N)[i]? = some k →
      ((mh rng t M P pa obs key N).2)[i]?
        = some ((metropolis_hastings_move rng
            (mhCarry rng ⟨t, M, P, pa, obs⟩ (rng.splitN key N) i) k).2))
  ∧ (N = 0 → mh rng t M P pa obs key N = (t, []))
  ∧ (0 < N → ((mh rng t M P pa obs key N).2).getLast?
        = some (mh rng t M P pa obs key N).1) := by
  refine ⟨?_, ?_, ?_, ?_⟩
  · show ((laxScan (metropolis_hastings_move rng) _ (rng.splitN key N)).2).length = N
    rw [laxScan_length]
    exact rng.splitN_length key N
  · intro i k hk
    exact laxScan_get (metropolis_hastings_move rng) (rng.splitN key N) i _ k hk
  · intro h
    subst h
    have hnil : rng.splitN key 0 = [] :=
      List.length_eq_zero.mp (rng.splitN_length key 0)
    show ((laxScan (metropolis_hastings_move rng)
          ⟨t, M, P, pa, obs⟩ (rng.splitN key 0)).1.trace,
        (laxScan (metropolis_hastings_move rng)
          ⟨t, M, P, pa, obs⟩ (rng.splitN key 0)).2) = (t, [])
    rw [hnil]
    rfl
  · intro h
    have hne : rng.splitN key N ≠ [] := by
      intro hcon
      have := rng.splitN_length key N
      rw [hcon] at this
      simp at this
      omega
    exact laxScan_getLast (metropolis_hastings_move rng) MHState.trace
      (fun c k => rfl) (rng.splitN key N) ⟨t, M, P, pa, obs⟩ hne

/-- C2 witness: the driver contract instantiated on concrete inputs. -/
theorem mh_driver_contract_witness :
    ((rng0.splitN 0 1)[0]? = some 1)
  ∧ ((mh rng0 t0 M0 P0 [] obs0 0 1).2)[0]?
      = some ((metropolis_hastings_move rng0
          (mhCarry rng0 ⟨t0, M0, P0, [], obs0⟩ (rng0.splitN 0 1) 0) 1).2)
  ∧ mh rng0 t0 M0 P0 [] obs0 0 0 = (t0, [])
  ∧ ((mh rng0 t0 M0 P0 [] obs0 0 1).2).getLast?
      = some (mh rng0 t0 M0 P0 [] obs0 0 1).1 :=
  ⟨by decide,
   (mh_driver_contract rng0 t0 M0 P0 [] obs0 0 1).2.1 0 1 (by decide),
   (mh_driver_contract rng0 t0 M0 P0 [] obs0 0 0).2.2.1 rfl,
   (mh_driver_contract rng0 t0 M0 P0 [] obs0 0 1).2.2.2 (by decide)⟩

theorem mhScan_carry_components (rng : Rng) :
    ∀ (ks : List Seed) (st : MHState),
      ((laxScan (metropolis_hastings_move rng) st ks).1).model = st.model
    ∧ ((laxScan (metropolis_hastings_move rng) st ks).1).proposal
        = st.proposal := by
  intro ks
  induction ks with
  | nil => intro st; exact ⟨rfl, rfl⟩
  | cons k ks ih =>
    intro st
    have h := ih (metropolis_hastings_move rng st k).1
    exact ⟨h.1, h.2⟩

theorem cmUpdate_lookup_none (old c : ChoiceMap) (a : Addr)
    (h : cmLookup c a = none) :
    cmLookup (cmUpdate old c) a = cmLookup old a := by
  induction old with
  | nil => rfl
  | cons p rest ih =>
    show (if p.1 = a then some ((cmLookup c p.1).getD p.2)
        else cmLookup (cmUpdate rest c) a)
      = (if p.1 = a then some p.2 else cmLookup rest a)
    by_cases hpa : p.1 = a
    · rw [if_pos hpa, if_pos hpa, hpa, h]
      rfl
    · rw [if_neg hpa, if_neg hpa, ih]

theorem M0_update_preserves (s : Seed) (tr : Trace) (c : ChoiceMap) (d : Diff)
    (a : Addr) (h : cmLookup c a = none) :
    cmLookup ((M0.update s tr c d).1.choices) a = cmLookup tr.choices a :=
  cmUpdate_lookup_none tr.choices c a h

theorem cmLookup_single_ne (v : ℤ) (a : Addr) (h : a ≠ addrA) :
    cmLookup [(addrA, v)] a = none := by
  show (if addrA = a then some v else none) = none
  rw [if_neg (fun hh => h hh.symm)]

theorem mhMove_prop_preserves (rng : Rng) (ns : Seed → ℤ → ℤ → ℤ)
    (lp : ℤ → ℤ → ℤ → Weight) (st : MHState) (key : Seed) (addr : Addr)
    (hP : st.proposal = prop ns lp)
    (hM : ∀ s tr c d a, cmLookup c a = none →
        cmLookup ((st.model.update s tr c d).1.choices) a
          = cmLookup tr.choices a)
    (ha : addr ≠ addrA) :
    cmLookup ((metropolis_hastings_move rng st key).1.trace.choices) addr
      = cmLookup st.trace.choices addr := by
  rw [mhMove_ite rng st key]
  by_cases hb : Weight.lt (rng.log (rng.uniform (acceptSeed rng key)))
      (acceptRatio rng st key) = true
  · rw [if_pos hb]
    show cmLookup ((updateResult rng st key).1.choices) addr
      = cmLookup st.trace.choices addr
    rw [updateResult]
    apply hM
    rw [fwdProposal, hP]
    exact cmLookup_single_ne _ addr ha
  · rw [if_neg hb]

/-- C3: along the driver's chain with the notebook's Gaussian-drift
proposal and a model whose update preserves unedited addresses, every
address present in the observation constraints (which do not constrain the
drifted address) has the same value in the trace before and after each
kernel application. -/
theorem mh_observed_addresses_invariant (rng : Rng) (ns : Seed → ℤ → ℤ → ℤ)
    (lp : ℤ → ℤ → ℤ → Weight) (M : Model) (t : Trace) (pa : List ℤ)
    (obs : ChoiceMap) (key : Seed) (N : ℕ)
    (hM : ∀ s tr c d a, cmLookup c a = none →
        cmLookup ((M.update s tr c d).1.choices) a = cmLookup tr.choices a)
    (hobs : cmLookup obs addrA = none) (addr : Addr)
    (haddr : (cmLookup obs addr).isSome = true) (i : ℕ) (k : Seed)
    (hk : (rng.splitN key N)[i]? = some k) :
    cmLookup ((mhCarry rng ⟨t, M, prop ns lp, pa, obs⟩
        (rng.splitN key N) (i + 1)).trace.choices) addr
      = cmLookup ((mhCarry rng ⟨t, M, prop ns lp, pa, obs⟩
        (rng.splitN key N) i).trace.choices) addr := by
  have ha : addr ≠ addrA := by
    intro h
    rw [h, hobs] at haddr
    simp at haddr
  have hcomp := mhScan_carry_components rng
    ((rng.splitN key N).take i) ⟨t, M, prop ns lp, pa, obs⟩
  have hsucc := laxScan_carry_succ (metropolis_hastings_move rng)
    (rng.splitN key N) i ⟨t, M, prop ns lp, pa, obs⟩ k hk
  show cmLookup ((laxScan (metropolis_hastings_move rng)
      ⟨t, M, prop ns lp, pa, obs⟩ ((rng.splitN key N).take (i + 1))).1.trace.choices) addr
    = cmLookup ((mhCarry rng ⟨t, M, prop ns lp, pa, obs⟩
      (rng.splitN key N) i).trace.choices) addr
  rw [hsucc]
  exact mhMove_prop_preserves rng ns lp _ k addr hcomp.2
    (by rw [hcomp.1]; exact hM) ha

/-- C3 witness: the invariant instantiated on concrete inputs. -/
theorem mh_observed_addresses_invariant_witness :
    cmLookup obs0 addrA = none
  ∧ (cmLookup obs0 addrY).isSome = true
  ∧ ((rng0.splitN 0 1)[0]? = some 1)
  ∧ cmLookup ((mhCarry rng0 ⟨t0, M0, prop ns0 lp0, [], obs0⟩
        (rng0.splitN 0 1) 1).trace.choices) addrY
      = cmLookup ((mhCarry rng0 ⟨t0, M0, prop ns0 lp0, [], obs0⟩
        (rng0.splitN 0 1) 0).trace.choices) addrY :=
  ⟨by decide, by decide, by decide,
   mh_observed_addresses_invariant rng0 ns0 lp0 M0 t0 [] obs0 0 1
     (fun s tr c d a h => M0_update_preserves s tr c d a h)
     (by decide) addrY (by decide) 0 1 (by decide)⟩

/-- C4: the driver is a deterministic function of its inputs, consuming
randomness only through the randomness interface applied to the passed
seed: behaviourally identical randomness interfaces, and seeds producing
the same step-key list, give bit-identical chains and final traces. -/
theorem mh_reproducible (r1 r2 : Rng) (t : Trace) (M : Model) (P : Proposal)
    (pa : List ℤ) (obs : ChoiceMap) (key1 key2 : Seed) (N : ℕ)
    (h1 : r1.split = r2.split) (h2 : r1.split3 = r2.split3)
    (h3 : r1.splitN = r2.splitN) (h4 : r1.uniform = r2.uniform)
    (h5 : r1.log = r2.log) (hkey : r1.splitN key1 N = r1.splitN key2 N) :
    mh r1 t M P pa obs key1 N = mh r2 t M P pa obs key2 N := by
  have heq : r1 = r2 := by
    cases r1
    cases r2
    simp only at h1 h2 h3 h4 h5
    subst h1
    subst h2
    subst h3
    subst h4
    subst h5
    rfl
  subst heq
  show ((laxScan (metropolis_hastings_move r1)
        ⟨t, M, P, pa, obs⟩ (r1.splitN key1 N)).1.trace,
      (laxScan (metropolis_hastings_move r1)
        ⟨t, M, P, pa, obs⟩ (r1.splitN key1 N)).2)
    = ((laxScan (metropolis_hastings_move r1)
        ⟨t, M, P, pa, obs⟩ (r1.splitN key2 N)).1.trace,
      (laxScan (metropolis_hastings_move r1)
        ⟨t, M, P, pa, obs⟩ (r1.splitN key2 N)).2)
  rw [hkey]

/-- C4 witness: reproducibility instantiated on concrete inputs. -/
theorem mh_reproducible_witness :
    rng0.split = rng0.split
  ∧ mh rng0 t0 M0 P0 [] obs0 0 2 = mh rng0 t0 M0 P0 [] obs0 0 2 :=
  ⟨rfl, mh_reproducible rng0 rng0 t0 M0 P0 [] obs0 0 0 2
    rfl rfl rfl rfl rfl rfl⟩

/-- C5 counterexample: the claim that the kernel derives exactly two
sub-seeds from the step seed, with the accept/reject uniform draw consuming
one of them, is false: two randomness interfaces that share the splitting
function and the logarithm and agree on the uniform draw at both outputs of
splitting the step seed can still produce different kernel results, so the
uniform draw is consumed at a seed that is not among those two outputs. -/
theorem mh_kernel_two_subseeds_false :
    rng1.split = rng2.split
  ∧ rng1.log = rng2.log
  ∧ rng1.uniform ((rng1.split 0).1) = rng2.uniform ((rng1.split 0).1)
  ∧ rng1.uniform ((rng1.split 0).2) = rng2.uniform ((rng1.split 0).2)
  ∧ (metropolis_hastings_move rng1 st0 0).2
      ≠ (metropolis_hastings_move rng2 st0 0).2 :=
  ⟨rfl, rfl, by decide, by decide, by decide⟩

/-- C5 amended: the kernel performs two seed splits; the first split of the
step seed yields the forward-proposal seed and the model-update seed, and
the accept/reject uniform draw consumes the second output of re-splitting
the forward-proposal seed — the kernel's record depends on the proposal
sampler, the model update and the uniform source only through their values
at those three seeds. -/
theorem mh_kernel_seed_flow (rng : Rng) (st : MHState) (key : Seed)
    (u2 : Seed → ℤ) (p2 : Seed → Trace × List ℤ → ChoiceMap × Weight × ℤ)
    (m2 : Seed → Trace → ChoiceMap → Diff → Trace × Weight × Unit × ChoiceMap)
    (hu : u2 ((rng.split (rng.split key).1).2)
        = rng.uniform ((rng.split (rng.split key).1).2))
    (hp : ∀ a, p2 (rng.split key).1 a = st.proposal.propose (rng.split key).1 a)
    (hm : ∀ tr c d, m2 (rng.split key).2 tr c d
        = st.model.update (rng.split key).2 tr c d) :
    (metropolis_hastings_move { rng with uniform := u2 }
        { st with model := { st.model with update := m2 },
                  proposal := { st.proposal with propose := p2 } } key).2
      = (metropolis_hastings_move rng st key).2 := by
  simp only [metropolis_hastings_move]
  rw [hp, hm, hu]

/-- C5 amended witness: the seed-flow theorem instantiated on concrete
inputs. -/
theorem mh_kernel_seed_flow_witness :
    rng0.uniform ((rng0.split (rng0.split 0).1).2)
      = rng0.uniform ((rng0.split (rng0.split 0).1).2)
  ∧ (metropolis_hastings_move { rng0 with uniform := rng0.uniform }
        { st0 with model := { st0.model with update := st0.model.update },
                   proposal := { st0.proposal with propose := st0.proposal.propose } } 0).2
      = (metropolis_hastings_move rng0 st0 0).2 :=
  ⟨rfl, mh_kernel_seed_flow rng0 st0 0 rng0.uniform st0.proposal.propose
    st0.model.update rfl (fun _ => rfl) (fun _ _ _ => rfl)⟩

/-- C7: if the acceptance log-ratio evaluates to positive infinity, the
kernel accepts the candidate trace for every possible value of the uniform
draw (whose logarithm is never `+inf` or `nan`). -/
theorem mh_kernel_posinf_accepts (rng : Rng) (st : MHState) (key : Seed)
    (halpha : acceptRatio rng st key = Weight.posInf)
    (hu : rng.log (rng.uniform (acceptSeed rng key)) ≠ Weight.posInf)
    (hn : rng.log (rng.uniform (acceptSeed rng key)) ≠ Weight.nan) :
    metropolis_hastings_move rng st key
      = ({st with trace := (updateResult rng st key).1},
         (updateResult rng st key).1) := by
  rw [mhMove_ite rng st key, halpha]
  have hlt : Weight.lt (rng.log (rng.uniform (acceptSeed rng key)))
      Weight.posInf = true := by
    cases h : rng.log (rng.uniform (acceptSeed rng key)) with
    | nan => exact absurd h hn
    | negInf => rfl
    | posInf => exact absurd h hu
    | fin q => rfl
  rw [hlt]
  rfl

/-- C7 witness: a concrete kernel invocation whose acceptance log-ratio is
positive infinity accepts. -/
theorem mh_kernel_posinf_accepts_witness :
    acceptRatio rng0 stInf 0 = Weight.posInf
  ∧ metropolis_hastings_move rng0 stInf 0
      = ({stInf with trace := (updateResult rng0 stInf 0).1},
         (updateResult rng0 stInf 0).1) :=
  ⟨by decide,
   mh_kernel_posinf_accepts rng0 stInf 0 (by decide) (by decide) (by decide)⟩

/-- C9: the driver entry point obtains exactly one trace by importance
initialization under the observation constraints, and that trace is the
initial chain state of the MH driver loop with the Gaussian-drift
proposal. -/
theorem run_inference_initializes_by_importance (rng : Rng)
    (ns : Seed → ℤ → ℤ → ℤ) (lp : ℤ → ℤ → ℤ → Weight) (M : Model)
    (args : List ℤ) (obs : ChoiceMap) (key : Seed) (n : ℕ) :
    run_inference rng ns lp M args obs key n
      = mh rng ((M.importance ((rng.split3 key).2.1) obs args).1) M
          (prop ns lp) [] obs ((rng.split3 key).2.2) n := rfl

theorem mhScan_importance_irrel (rng : Rng) :
    ∀ (ks : List Seed) (st : MHState) (M2 : Model),
      st.model.update = M2.update →
      (laxScan (metropolis_hastings_move rng) { st with model := M2 } ks).1.trace
          = (laxScan (metropolis_hastings_move rng) st ks).1.trace
      ∧ (laxScan (metropolis_hastings_move rng) { st with model := M2 } ks).2
          = (laxScan (metropolis_hastings_move rng) st ks).2 := by
  intro ks
  induction ks with
  | nil => intro st M2 h; exact ⟨rfl, rfl⟩
  | cons k ks ih =>
    intro st M2 h
    have hstep : metropolis_hastings_move rng { st with model := M2 } k
        = ({ (metropolis_hastings_move rng st k).1 with model := M2 },
           (metropolis_hastings_move rng st k).2) := by
      simp only [metropolis_hastings_move]
      rw [← h]
    have hnext := ih (metropolis_hastings_move rng st k).1 M2 h
    constructor
    · show (laxScan (metropolis_hastings_move rng)
          (metropolis_hastings_move rng { st with model := M2 } k).1 ks).1.trace
        = (laxScan (metropolis_hastings_move rng)
          (metropolis_hastings_move rng st k).1 ks).1.trace
      rw [hstep]
      exact hnext.1
    · show (metropolis_hastings_move rng { st with model := M2 } k).2
          :: (laxScan (metropolis_hastings_move rng)
            (metropolis_hastings_move rng { st with model := M2 } k).1 ks).2
        = (metropolis_hastings_move rng st k).2
          :: (laxScan (metropolis_hastings_move rng)
            (metropolis_hastings_move rng st k).1 ks).2
      rw [hstep]
      exact congrArg _ hnext.2

/-- C10: the importance weight returned by the initialization is discarded:
replacing the model's importance operation by one returning the same trace
with any other weight leaves the chain of traces and the final trace
unchanged. -/
theorem run_inference_weight_discarded (rng : Rng) (ns : Seed → ℤ → ℤ → ℤ)
    (lp : ℤ → ℤ → ℤ → Weight) (M : Model)
    (w : Seed → ChoiceMap → List ℤ → Weight) (args : List ℤ)
    (obs : ChoiceMap) (key : Seed) (n : ℕ) :
    run_inference rng ns lp
        { M with importance := fun s c a => ((M.importance s c a).1, w s c a) }
        args obs key n
      = run_inference rng ns lp M args obs key n := by
  have h := mhScan_importance_irrel rng
    (rng.splitN ((rng.split3 key).2.2) n)
    ⟨(M.importance ((rng.split3 key).2.1) obs args).1, M, prop ns lp, [], obs⟩
    { M with importance := fun s c a => ((M.importance s c a).1, w s c a) }
    rfl
  show ((laxScan (metropolis_hastings_move rng)
        ⟨(M.importance ((rng.split3 key).2.1) obs args).1,
          { M with importance := fun s c a => ((M.importance s c a).1, w s c a) },
          prop ns lp, [], obs⟩
        (rng.splitN ((rng.split3 key).2.2) n)).1.trace,
      (laxScan (metropolis_hastings_move rng)
        ⟨(M.importance ((rng.split3 key).2.1) obs args).1,
          { M with importance := fun s c a => ((M.importance s c a).1, w s c a) },
          prop ns lp, [], obs⟩
        (rng.splitN ((rng.split3 key).2.2) n)).2)
    = ((laxScan (metropolis_hastings_move rng)
        ⟨(M.importance ((rng.split3 key).2.1) obs args).1, M,
          prop ns lp, [], obs⟩
        (rng.splitN ((rng.split3 key).2.2) n)).1.trace,
      (laxScan (metropolis_hastings_move rng)
        ⟨(M.importance ((rng.split3 key).2.1) obs args).1, M,
          prop ns lp, [], obs⟩
        (rng.splitN ((rng.split3 key).2.2) n)).2)
  rw [← h.1, ← h.2]

end GenjaxMH
